import Mathlib

/-!
# Shallow embedding of the staff-directory CLI (models.py, database.py)

This file embeds the data model and operations of the repository:

* `src/models.py`  — `Employee.calculate_age`, `Employee.validate`
* `src/database.py` — `DatabaseManager.bulk_insert_employees`,
  `DatabaseManager.generate_sample_data`, `DatabaseManager.query_male_f_surnames`,
  `DatabaseManager.create_optimization_indexes`

Python `datetime.date` values are modelled by `PyDate` (year/month/day with
lexicographic comparison, exactly how Python compares dates).  `date.today()`
is modelled as an explicit `today` parameter.  Python strings are Lean
`String`s; `len` is `String.length`, `str.strip` is `pyStrip`,
`str.startswith` is `startswith` (prefix test on the character list).
-/

/-- Model of Python `datetime.date`: a year/month/day triple.  Python compares
dates lexicographically by (year, month, day). -/
structure PyDate where
  year : Int
  month : Nat
  day : Nat
deriving DecidableEq, Repr

/-- Python `date.__lt__`: lexicographic on (year, month, day). -/
def PyDate.lt (a b : PyDate) : Bool :=
  a.year < b.year ||
  (a.year == b.year && (a.month < b.month ||
    (a.month == b.month && a.day < b.day)))

/-- Python `date.replace(year=y)`: same month and day, new year.  (Python
raises `ValueError` when the result is not a real date, e.g. Feb 29 mapped
into a non-leap year; the claims below are only instantiated at dates where
the replacement is a real date.) -/
def PyDate.replaceYear (d : PyDate) (y : Int) : PyDate :=
  ⟨y, d.month, d.day⟩

/-- Gregorian leap-year rule, as implemented by Python's `calendar.isleap`. -/
def isLeap (y : Int) : Bool :=
  (y % 4 == 0 && y % 100 != 0) || y % 400 == 0

/-- Number of days of month `m` of year `y` (Gregorian calendar). -/
def daysInMonth (y : Int) (m : Nat) : Nat :=
  if m = 2 then (if isLeap y then 29 else 28)
  else if m = 4 ∨ m = 6 ∨ m = 9 ∨ m = 11 then 30
  else 31

/-- `d` is a real calendar date. -/
def isValidDate (d : PyDate) : Prop :=
  1 ≤ d.month ∧ d.month ≤ 12 ∧ 1 ≤ d.day ∧ d.day ≤ daysInMonth d.year d.month

instance (d : PyDate) : Decidable (isValidDate d) := by
  unfold isValidDate; infer_instance

/-- The calendar day immediately before `d` (for a valid `d`). -/
def prevDay (d : PyDate) : PyDate :=
  if d.day > 1 then ⟨d.year, d.month, d.day - 1⟩
  else if d.month > 1 then ⟨d.year, d.month - 1, daysInMonth d.year (d.month - 1)⟩
  else ⟨d.year - 1, 12, 31⟩

/-- `Employee.calculate_age` (src/models.py lines 42-51): full years between
the birth date and `today`, decrementing by one when today's month/day precede
the birth month/day.  `today` stands for Python's `date.today()`. -/
def calculate_age (birth today : PyDate) : Int :=
  let age : Int := today.year - birth.year
  if today.month < birth.month ∨ (today.month = birth.month ∧ today.day < birth.day) then
    age - 1
  else
    age

/-- Python `str.strip()` restricted to its effect on emptiness: the stripped
string, obtained by dropping whitespace from both ends of the character list. -/
def pyStrip (s : String) : String :=
  ⟨(((s.data.dropWhile Char.isWhitespace).reverse.dropWhile Char.isWhitespace).reverse)⟩

/-- Python `s.startswith(p)`: `p` is a prefix of `s`. -/
def startswith (s p : String) : Bool :=
  p.data.isPrefixOf s.data

/-- `Employee.validate` (src/models.py lines 71-99), the accumulated error
list.  The record fields are passed explicitly; `birth_date` is an `Option`
because Python's `if not self.birth_date` check only fires when the field is
`None` (real `date` objects are always truthy).  `today` stands for
`date.today()`. -/
def validateErrors (full_name : String) (birth_date : Option PyDate)
    (gender : String) (today : PyDate) : List String :=
  let nameErrors :=
    if full_name = "" ∨ (pyStrip full_name).length = 0 then
      ["Full name cannot be empty"]
    else if full_name.length > 200 then
      ["Full name too long (max 200 characters)"]
    else []
  let dateErrors :=
    match birth_date with
    | none => ["Birth date is required"]
    | some bd =>
        (if PyDate.lt today bd then ["Birth date cannot be in the future"] else []) ++
        (if PyDate.lt bd (today.replaceYear (today.year - 150)) then
          ["Birth date seems too far in the past"] else [])
  let genderErrors :=
    if gender = "Male" ∨ gender = "Female" then [] else
      ["Gender must be one of: Male, Female"]
  nameErrors ++ dateErrors ++ genderErrors

/-- `Employee.validate`: raises `ValueError` joining the reasons when the
error list is non-empty, otherwise returns without effect. -/
def validate (full_name : String) (birth_date : Option PyDate)
    (gender : String) (today : PyDate) : Except String Unit :=
  let errors := validateErrors full_name birth_date gender today
  if errors ≠ [] then .error (String.intercalate "; " errors) else .ok ()

/-- The business model `Employee` (src/models.py lines 34-40) as used by the
generation and loading pipeline, where the three fields are always present. -/
structure Employee where
  full_name : String
  birth_date : PyDate
  gender : String
deriving DecidableEq, Repr

/-- The composite key `(full_name, birth_date)` guarded by the uniqueness
ledger and by the store's `unique_employee` constraint. -/
def empKey (e : Employee) : String × PyDate :=
  (e.full_name, e.birth_date)

/-- The name pools imported from the repository's `data` package
(`data/surnames.py`, `data/names_male.py`, `data/names_female.py`,
`data/middle_names.py`; the package is not part of `src/`, so the pools are
parameters of the embedding).  `SURNAMES` is a list of (male form, female
form) pairs, exactly as unpacked by `surname_male, surname_female = ...`. -/
structure Pools where
  SURNAMES : List (String × String)
  MALE_NAMES : List String
  FEMALE_NAMES : List String
  MIDDLE_NAMES_MALE : List String
  MIDDLE_NAMES_FEMALE : List String

/-- One draw of the random source for one candidate record: indices consumed
by the three `random.choice` calls and the birth date produced by
`start_date + timedelta(days=random.randint(...))`.  The birth-date
computation (lines 297-300 of src/database.py) is absorbed into the drawn
`bdate`; none of the claims depend on the 18-65-year window. -/
structure Draw where
  sIdx : Nat
  fIdx : Nat
  mIdx : Nat
  bdate : PyDate

/-- `random.choice(l)` with the random source supplying index `k`: the
element at `k % len(l)`.  Python raises `IndexError` on an empty list; the
default is only reachable there, and theorems that depend on the drawn value
assume the pool is non-empty. -/
def pyChoice (l : List α) (dflt : α) (k : Nat) : α :=
  l.getD (k % l.length) dflt

/-- One base-phase candidate (src/database.py lines 280-302), built at
attempt counter `i` from draw `d`: gender alternates with `i % 2`, the
surname pair is drawn from `SURNAMES` with the F-male-surname pairs filtered
out, and first/middle names from the gender's pools. -/
def baseCandidate (P : Pools) (d : Draw) (i : Nat) : Employee :=
  let gender := if i % 2 = 0 then "Male" else "Female"
  let isMale := gender = "Male"
  let available_surnames := P.SURNAMES.filter (fun p => ¬ startswith p.1 "F")
  let sp := pyChoice available_surnames ("", "") d.sIdx
  let surname := if isMale then sp.1 else sp.2
  let first_name :=
    if isMale then pyChoice P.MALE_NAMES "" d.fIdx else pyChoice P.FEMALE_NAMES "" d.fIdx
  let middle_name :=
    if isMale then pyChoice P.MIDDLE_NAMES_MALE "" d.mIdx
    else pyChoice P.MIDDLE_NAMES_FEMALE "" d.mIdx
  { full_name := surname ++ " " ++ first_name ++ " " ++ middle_name
    birth_date := d.bdate
    gender := gender }

/-- One target-phase candidate (src/database.py lines 328-338): male surname
drawn from the pairs whose male form starts with `'F'`, male first/middle
names, gender fixed to `"Male"`. -/
def targetCandidate (P : Pools) (d : Draw) : Employee :=
  let f_surnames := P.SURNAMES.filter (fun p => startswith p.1 "F")
  let sp := pyChoice f_surnames ("", "") d.sIdx
  let first_name := pyChoice P.MALE_NAMES "" d.fIdx
  let middle_name := pyChoice P.MIDDLE_NAMES_MALE "" d.mIdx
  { full_name := sp.1 ++ " " ++ first_name ++ " " ++ middle_name
    birth_date := d.bdate
    gender := "Male" }

/-- The base-generation loop of `generate_sample_data` (src/database.py lines
276-314).  `r` is the random source, indexed by the attempt counter `i`
(which also drives the gender alternation); `total` is `total_main`;
`seen` is the `seen_combinations` ledger and `acc` is `all_employees`.
A candidate whose key is already in the ledger is discarded (no count
increment); after `i += 1`, if `i > total_main * 3` the loop *breaks* and
returns the partial accumulator (the source prints "Breaking generation loop
to avoid infinite cycle" and falls through to the target phase).

The loop is embedded with a `fuel` argument bounding the remaining
iterations; `genBase` supplies `total * 3 + 1` at `i = 0`, which keeps the
invariant `fuel = total * 3 + 1 - i`, so the `i + 1 > total * 3` break always
fires strictly before the fuel runs out and the fuel-exhaustion branch is
unreachable from `genBase`. -/
def genBaseLoop (P : Pools) (r : Nat → Draw) (total : Nat) :
    Nat → Nat → Nat → List (String × PyDate) → List Employee →
    List Employee × List (String × PyDate)
  | 0, _, _, seen, acc => (acc, seen)
  | fuel + 1, i, generated, seen, acc =>
    if generated < total then
      let e := baseCandidate P (r i) i
      let hit := empKey e ∈ seen
      let seen' := if hit then seen else empKey e :: seen
      let acc' := if hit then acc else acc ++ [e]
      let generated' := if hit then generated else generated + 1
      if i + 1 > total * 3 then (acc', seen')
      else genBaseLoop P r total fuel (i + 1) generated' seen' acc'
    else (acc, seen)

/-- The base phase started from an empty ledger and accumulator. -/
def genBase (P : Pools) (r : Nat → Draw) (total : Nat) :
    List Employee × List (String × PyDate) :=
  genBaseLoop P r total (total * 3 + 1) 0 0 [] []

/-- One iteration of the target-phase loop of `generate_sample_data` (src/database.py lines
325-346): `for i in range(target_male_f_count)`, drawing one candidate per
iteration and appending it unless its key is already in the ledger.  The
source's `i -= 1` in the colliding branch has no effect on a Python `for`
loop over `range`, so a collision simply drops that iteration's record. -/
def targetStep (P : Pools) (r : Nat → Draw)
    (st : List Employee × List (String × PyDate)) (idx : Nat) :
    List Employee × List (String × PyDate) :=
  let e := targetCandidate P (r idx)
  if empKey e ∈ st.2 then st else (st.1 ++ [e], empKey e :: st.2)

/-- The target phase: fold `targetStep` over `range(target_male_f_count)`
starting from an empty `target_employees` list and the base phase's ledger. -/
def genTarget (P : Pools) (r : Nat → Draw) (count : Nat)
    (seen : List (String × PyDate)) :
    List Employee × List (String × PyDate) :=
  (List.range count).foldl (targetStep P r) ([], seen)

/-- `DatabaseManager.generate_sample_data` (src/database.py lines 252-358),
up to the population handed to the shuffle and the loader: the base phase,
then the check that some surname pair has a male form starting with `'F'`
(`raise Exception("No F-surnames found in the database!")` otherwise), then
the target phase run against the same ledger; the result is
`all_employees = base ++ target_employees`.  The source hardcodes
`total_main = 1000000` and `target_male_f_count = 100`; they are the
`total_main` and `target_count` arguments here.  The final
`random.shuffle` is an arbitrary permutation of the returned list and is
quantified over in the theorems that need it. -/
def generate_sample_data (P : Pools) (rB rT : Nat → Draw)
    (total_main target_count : Nat) : Except String (List Employee) :=
  let base := genBase P rB total_main
  let f_surnames := P.SURNAMES.filter (fun p => startswith p.1 "F")
  if f_surnames = [] then
    .error "No F-surnames found in the database!"
  else
    let target := genTarget P rT target_count base.2
    .ok (base.1 ++ target.1)

/-- `total_main` as hardcoded at src/database.py line 268. -/
def total_main_const : Nat := 1000000

/-- `target_male_f_count` as hardcoded at src/database.py line 269. -/
def target_male_f_count_const : Nat := 100

/-- The consecutive batches `employees[i:i+batch_size]` for
`i in range(0, total, batch_size)` with a positive step `k`, embedded with a
`fuel` bound on the number of batches; `chunksOf` supplies `l.length`, enough
for any positive `k` (each batch consumes at least one element), so the
fuel-exhaustion branch is unreachable there. -/
def chunksOfAux (k : Nat) : Nat → List α → List (List α)
  | _, [] => []
  | 0, _ :: _ => []
  | fuel + 1, x :: xs => (x :: xs).take k :: chunksOfAux k fuel ((x :: xs).drop k)

/-- The batch partition of `l` with positive batch size `k` (`k = 0` never
reaches this function: `range(0, total, 0)` raises first). -/
def chunksOf (k : Nat) (l : List α) : List (List α) :=
  chunksOfAux k l.length l

/-- The single bulk-insert transaction of a batch succeeds exactly when no
uniqueness violation arises at commit: the batch's keys are pairwise distinct
and none of them is already stored.  `db` is the set of stored
`(full_name, birth_date)` keys guarded by the `unique_employee` constraint. -/
def batchFresh (db : List (String × PyDate)) (batch : List Employee) : Prop :=
  (batch.map empKey).Nodup ∧ ∀ k ∈ batch.map empKey, k ∉ db

instance (db : List (String × PyDate)) (batch : List Employee) :
    Decidable (batchFresh db batch) := by
  unfold batchFresh; infer_instance

/-- The per-record fallback step of the loader (src/database.py lines
226-233): `session.add(db_emp); session.commit()` in its own transaction,
skipped (rolled back) when the key is already stored. -/
def recordStep (st : List (String × PyDate) × Nat) (e : Employee) :
    List (String × PyDate) × Nat :=
  if empKey e ∈ st.1 then st else (st.1 ++ [empKey e], st.2 + 1)

/-- Loading one batch (src/database.py lines 217-235): try
`bulk_save_objects` + `commit`; on success all rows are stored and the
inserted count advances by the batch length.  On an `IntegrityError` the
whole batch is rolled back (the store is unchanged) and the batch is retried
one record at a time, each `add`/`commit` its own transaction; a per-record
`IntegrityError` is rolled back and skipped (`continue`).  Returns the new
stored-key set and the records inserted for this batch. -/
def insertBatch (db : List (String × PyDate)) (batch : List Employee) :
    List (String × PyDate) × Nat :=
  if batchFresh db batch then
    (db ++ batch.map empKey, batch.length)
  else
    batch.foldl recordStep (db, 0)

/-- `DatabaseManager.bulk_insert_employees` (src/database.py lines 196-250)
over the stored-key set `db`.  Mirrors the source exactly:
* an empty input prints "No employees to insert" and returns (no error);
* `batch_size = 0` makes `range(0, total, 0)` raise
  `ValueError: range() arg 3 must not be zero`, caught by the outer
  `except Exception` and re-raised as `Exception("Error during bulk insert: ...")`;
* `batch_size < 0` makes `range(0, total, batch_size)` *empty*, so the loop
  body never runs and the call returns with zero insertions and no error;
* otherwise the batches are processed in order by `insertBatch`.
Returns the new stored-key set and the total inserted count. -/
def bulk_insert_employees (db : List (String × PyDate))
    (employees : List Employee) (batch_size : Int) :
    Except String (List (String × PyDate) × Nat) :=
  if employees = [] then .ok (db, 0)
  else if batch_size = 0 then
    .error "Error during bulk insert: range() arg 3 must not be zero"
  else if batch_size < 0 then .ok (db, 0)
  else
    .ok ((chunksOf batch_size.toNat employees).foldl
      (fun st batch =>
        let r := insertBatch st.1 batch
        (r.1, st.2 + r.2))
      (db, 0))

/-- SQLite `full_name LIKE 'F% %'` (src/database.py line 427): the first
character matches `F` case-insensitively for ASCII (SQLite's default `LIKE`),
and some later character is a space. -/
def likeFSpace (s : String) : Bool :=
  match s.data with
  | c :: rest => (c == 'F' || c == 'f') && rest.contains ' '
  | [] => false

/-- Insertion into a list sorted by `full_name` (String order, as SQLite's
default BINARY collation orders text). -/
def insertByName (e : Employee) : List Employee → List Employee
  | [] => [e]
  | x :: xs => if e.full_name ≤ x.full_name then e :: x :: xs else x :: insertByName e xs

/-- `ORDER BY full_name`: insertion sort of the result rows by name. -/
def sortByName (l : List Employee) : List Employee :=
  l.foldr insertByName []

/-- `DatabaseManager.query_male_f_surnames` (src/database.py lines 417-448)
on the SQLite backend, the only one `config.get_connection_string` supports:
rows with `gender = 'Male'` and `full_name LIKE 'F% %'`, ordered by
`full_name`.  `db` is the list of stored rows. -/
def query_male_f_surnames (db : List Employee) : List Employee :=
  sortByName (db.filter (fun e => e.gender == "Male" && likeFSpace e.full_name))

/-- An index of the store: its name and its column list. -/
structure IndexDef where
  name : String
  columns : List String
deriving DecidableEq, Repr

/-- The names dropped by the `DROP INDEX IF EXISTS` statements
(src/database.py lines 458-464). -/
def dropped_index_names : List String :=
  ["idx_employees_gender", "idx_employees_full_name_prefix",
   "idx_employees_gender_fname_prefix", "idx_employees_composite_optimized",
   "idx_employees_gender_fname"]

/-- `DatabaseManager.create_optimization_indexes` (src/database.py lines
450-490) acting on the store's index set: drop every index whose name is in
`dropped_index_names` (if present), then
`CREATE INDEX idx_employees_gender_fname ON employees(gender, full_name)`.
The `ANALYZE` / `PRAGMA` statements refresh statistics and do not change the
index set. -/
def create_optimization_indexes (indexes : List IndexDef) : List IndexDef :=
  indexes.filter (fun ix => ix.name ∉ dropped_index_names) ++
    [⟨"idx_employees_gender_fname", ["gender", "full_name"]⟩]

/-! ## Concrete instances used by witnesses and counterexamples -/

/-- A sample birth date. -/
def d0 : PyDate := ⟨1990, 1, 1⟩

/-- A two-pair surname pool: one ordinary pair and one F-pair, with
one-element name pools. -/
def P1 : Pools := ⟨[("Smith", "Smithova"), ("Fox", "Foxova")], ["John"], ["Jane"], ["M"], ["W"]⟩

/-- A surname pool containing only an F-pair (so the base-phase filtered pool
is empty but the target phase can draw). -/
def POnlyF : Pools := ⟨[("Fox", "Foxova")], ["John"], ["Jane"], ["M"], ["W"]⟩

/-- A constant random source: every draw picks index 0 and birth date `d0`. -/
def rConst : Nat → Draw := fun _ => ⟨0, 0, 0, d0⟩

/-- Sample records sharing the birth date `d0`. -/
def eA : Employee := ⟨"A", d0, "Male"⟩

def eB : Employee := ⟨"B", d0, "Male"⟩

def eC : Employee := ⟨"C", d0, "Female"⟩

def eD : Employee := ⟨"D", d0, "Male"⟩

/-- A 5-element batch whose only flaw is the intentional duplicate pair
`eA, eA` (the spec's duplicate-isolation scenario). -/
def dupBatch : List Employee := [eA, eA, eB, eC, eD]

/-- The population generated by `P1`/`rConst` with `total_main = 5`: the
constant draw exhausts after two distinct records and the loop breaks. -/
def partialPop : List Employee :=
  [⟨"Smith John M", d0, "Male"⟩, ⟨"Smithova Jane W", d0, "Female"⟩]

/-- The single target record produced by `POnlyF`/`rConst`: the second target
draw collides with the first and is dropped. -/
def foxEmp : Employee := ⟨"Fox John M", d0, "Male"⟩

/-- A Male record whose name starts with `F` but contains no space after it:
stored, yet not matched by `LIKE 'F% %'`. -/
def eFOnly : Employee := ⟨"F", d0, "Male"⟩

/-- A stored row matched by the query. -/
def eFa : Employee := ⟨"Fa b", d0, "Male"⟩

/-- A sample index state containing a stale index of the target name plus an
unrelated index. -/
def idxState : List IndexDef := [⟨"idx_employees_gender_fname", ["old"]⟩, ⟨"extra", ["id"]⟩]

/-- The base-phase records of the `P1`/`rConst` run. -/
def eSmithJM : Employee := ⟨"Smith John M", d0, "Male"⟩

def eSmithovaJW : Employee := ⟨"Smithova Jane W", d0, "Female"⟩

/-- The population generated by `P1`/`rConst` with 2 base + 1 target records. -/
def genPop3 : List Employee := [eSmithJM, eSmithovaJW, foxEmp]

/-! ## Helper lemmas -/

theorem pyChoice_mem {α : Type} (l : List α) (dflt : α) (k : Nat) (h : l ≠ []) :
    pyChoice l dflt k ∈ l := by
  unfold pyChoice
  have hlen : 0 < l.length := List.length_pos.mpr h
  have hk : k % l.length < l.length := Nat.mod_lt _ hlen
  rw [List.getD_eq_getElem l dflt hk]
  exact List.getElem_mem hk

theorem startswith_F_head (s : String) :
    startswith s "F" = true ↔ s.data.head? = some 'F' := by
  have hF : ("F" : String).data = ['F'] := rfl
  unfold startswith
  rw [hF, List.isPrefixOf_iff_prefix]
  cases h : s.data with
  | nil => simp
  | cons c cs => simp [List.cons_prefix_cons, eq_comm]

theorem fullname_startswith_F (s fn mn : String) :
    startswith (s ++ " " ++ fn ++ " " ++ mn) "F" = true ↔ s.data.head? = some 'F' := by
  have hsp : (" " : String).data = [' '] := rfl
  rw [startswith_F_head]
  cases h : s.data with
  | nil =>
      simp [String.data_append, hsp, h]
  | cons c cs =>
      simp [String.data_append, hsp, h]

theorem pyStrip_length_zero_iff (s : String) :
    (s = "" ∨ (pyStrip s).length = 0) ↔ ∀ c ∈ s.data, c.isWhitespace := by
  constructor
  · rintro (rfl | h) c hc
    · simp at hc
    · have hdata : ((s.data.dropWhile Char.isWhitespace).reverse.dropWhile
          Char.isWhitespace).reverse = [] := List.length_eq_zero.mp h
      have h2 : (s.data.dropWhile Char.isWhitespace).reverse.dropWhile
          Char.isWhitespace = [] := by
        simpa using congrArg List.reverse hdata
      have h3 : ∀ x ∈ (s.data.dropWhile Char.isWhitespace).reverse, x.isWhitespace :=
        fun x hx => List.dropWhile_eq_nil_iff.mp h2 x hx
      have hdrop : s.data.dropWhile Char.isWhitespace = [] := by
        by_contra hne
        obtain ⟨y, ys, hy⟩ := List.exists_cons_of_ne_nil hne
        have hyh : ¬ y.isWhitespace := by
          have hh := List.head?_dropWhile_not Char.isWhitespace s.data
          rw [hy] at hh
          simpa using hh
        exact hyh (by simpa using h3 y (by simp [hy]))
      have htake := List.takeWhile_append_dropWhile (p := Char.isWhitespace) (l := s.data)
      rw [hdrop, List.append_nil] at htake
      rw [← htake] at hc
      exact List.mem_takeWhile_imp hc
  · intro h
    right
    have hdrop : s.data.dropWhile Char.isWhitespace = [] :=
      List.dropWhile_eq_nil_iff.mpr (fun x hx => h x hx)
    simp [pyStrip, String.length, hdrop]

theorem baseCandidate_gender (P : Pools) (d : Draw) (i : Nat) :
    (baseCandidate P d i).gender = if i % 2 = 0 then "Male" else "Female" := by
  unfold baseCandidate
  by_cases hi : i % 2 = 0 <;> simp [hi]

theorem baseCandidate_male_not_F (P : Pools) (d : Draw) (i : Nat)
    (hav : P.SURNAMES.filter (fun p => ¬ startswith p.1 "F") ≠ [])
    (hg : (baseCandidate P d i).gender = "Male") :
    startswith (baseCandidate P d i).full_name "F" = false := by
  have hi : i % 2 = 0 := by
    by_contra hne
    rw [baseCandidate_gender] at hg
    simp [hne] at hg
  have hsp :
      pyChoice (P.SURNAMES.filter (fun p => ¬ startswith p.1 "F")) ("", "") d.sIdx ∈
        P.SURNAMES.filter (fun p => ¬ startswith p.1 "F") :=
    pyChoice_mem _ _ _ hav
  have hnotF :
      ¬ startswith (pyChoice (P.SURNAMES.filter (fun p => ¬ startswith p.1 "F"))
        ("", "") d.sIdx).1 "F" = true := by
    have := (List.mem_filter.mp hsp).2
    simpa using this
  unfold baseCandidate
  simp only [hi, if_pos, if_true, reduceIte]
  rw [Bool.eq_false_iff]
  intro hcontra
  have hhead := (fullname_startswith_F _ _ _).mp (by simpa using hcontra)
  exact hnotF ((startswith_F_head _).mpr (by simpa using hhead))

theorem genBaseLoop_spec (P : Pools) (r : Nat → Draw) (total : Nat) :
    ∀ (fuel i generated : Nat) (seen : List (String × PyDate)) (acc : List Employee),
      generated ≤ total →
      (acc.map empKey).Nodup →
      (∀ e ∈ acc, empKey e ∈ seen) →
      ((genBaseLoop P r total fuel i generated seen acc).1.map empKey).Nodup ∧
      (∀ e ∈ (genBaseLoop P r total fuel i generated seen acc).1,
        empKey e ∈ (genBaseLoop P r total fuel i generated seen acc).2) ∧
      (∀ k ∈ seen, k ∈ (genBaseLoop P r total fuel i generated seen acc).2) ∧
      (genBaseLoop P r total fuel i generated seen acc).1.length + generated ≤
        acc.length + total ∧
      (∀ e ∈ (genBaseLoop P r total fuel i generated seen acc).1,
        e ∈ acc ∨ ∃ j, e = baseCandidate P (r j) j) := by
  intro fuel
  induction fuel with
  | zero =>
      intro i generated seen acc hg hnd hsub
      simp only [genBaseLoop]
      exact ⟨hnd, hsub, fun k hk => hk, by omega, fun e he => Or.inl he⟩
  | succ fuel ih =>
      intro i generated seen acc hg hnd hsub
      simp only [genBaseLoop]
      by_cases hlt : generated < total
      · simp only [if_pos hlt]
        by_cases hhit : empKey (baseCandidate P (r i) i) ∈ seen
        · simp only [if_pos hhit]
          by_cases hbr : i + 1 > total * 3
          · simp only [if_pos hbr]
            exact ⟨hnd, hsub, fun k hk => hk, by omega, fun e he => Or.inl he⟩
          · simp only [if_neg hbr]
            exact ih (i + 1) generated seen acc hg hnd hsub
        · simp only [if_neg hhit]
          have hkey : empKey (baseCandidate P (r i) i) ∉ acc.map empKey := by
            intro hmem
            obtain ⟨a, ha, hak⟩ := List.mem_map.mp hmem
            exact hhit (hak ▸ hsub a ha)
          have hnd2 : ((acc ++ [baseCandidate P (r i) i]).map empKey).Nodup := by
            rw [List.map_append]
            simp only [List.map_cons, List.map_nil]
            rw [List.nodup_append]
            refine ⟨hnd, List.nodup_singleton _, ?_⟩
            intro k hk hk2
            simp at hk2
            rw [hk2] at hk
            exact hkey hk
          have hsub2 : ∀ e ∈ acc ++ [baseCandidate P (r i) i],
              empKey e ∈ empKey (baseCandidate P (r i) i) :: seen := by
            intro e he
            rcases List.mem_append.mp he with h1 | h1
            · exact List.mem_cons_of_mem _ (hsub e h1)
            · simp at h1
              rw [h1]
              exact List.mem_cons_self _ _
          by_cases hbr : i + 1 > total * 3
          · simp only [if_pos hbr]
            refine ⟨hnd2, hsub2, fun k hk => List.mem_cons_of_mem _ hk, by simp; omega, ?_⟩
            intro e he
            rcases List.mem_append.mp he with h1 | h1
            · exact Or.inl h1
            · simp at h1
              exact Or.inr ⟨i, h1⟩
          · simp only [if_neg hbr]
            have hg2 : generated + 1 ≤ total := hlt
            obtain ⟨c1, c2, c3, c4, c5⟩ :=
              ih (i + 1) (generated + 1) (empKey (baseCandidate P (r i) i) :: seen)
                (acc ++ [baseCandidate P (r i) i]) hg2 hnd2 hsub2
            refine ⟨c1, c2, fun k hk => c3 k (List.mem_cons_of_mem _ hk), by simp at c4 ⊢; omega, ?_⟩
            intro e he
            rcases c5 e he with h1 | h1
            · rcases List.mem_append.mp h1 with h2 | h2
              · exact Or.inl h2
              · simp at h2
                exact Or.inr ⟨i, h2⟩
            · exact Or.inr h1
      · simp only [if_neg hlt]
        exact ⟨hnd, hsub, fun k hk => hk, by omega, fun e he => Or.inl he⟩

theorem targetFold_spec (P : Pools) (r : Nat → Draw) :
    ∀ (l : List Nat) (acc : List Employee) (seen : List (String × PyDate)),
      (acc.map empKey).Nodup →
      (∀ e ∈ acc, empKey e ∈ seen) →
      ((l.foldl (targetStep P r) (acc, seen)).1.map empKey).Nodup ∧
      (∀ e ∈ (l.foldl (targetStep P r) (acc, seen)).1,
        empKey e ∈ (l.foldl (targetStep P r) (acc, seen)).2) ∧
      (∀ k ∈ seen, k ∈ (l.foldl (targetStep P r) (acc, seen)).2) ∧
      (∀ e ∈ (l.foldl (targetStep P r) (acc, seen)).1, e ∈ acc ∨ empKey e ∉ seen) ∧
      (l.foldl (targetStep P r) (acc, seen)).1.length ≤ acc.length + l.length := by
  intro l
  induction l with
  | nil =>
      intro acc seen hnd hsub
      simp only [List.foldl_nil]
      exact ⟨hnd, hsub, fun k hk => hk, fun e he => Or.inl he, by simp⟩
  | cons idx rest ih =>
      intro acc seen hnd hsub
      simp only [List.foldl_cons]
      by_cases hhit : empKey (targetCandidate P (r idx)) ∈ seen
      · have hstep : targetStep P r (acc, seen) idx = (acc, seen) := by
          simp [targetStep, hhit]
        rw [hstep]
        obtain ⟨c1, c2, c3, c4, c5⟩ := ih acc seen hnd hsub
        exact ⟨c1, c2, c3, c4, by simp only [List.length_cons]; omega⟩
      · have hstep : targetStep P r (acc, seen) idx =
            (acc ++ [targetCandidate P (r idx)],
             empKey (targetCandidate P (r idx)) :: seen) := by
          simp [targetStep, hhit]
        rw [hstep]
        have hkey : empKey (targetCandidate P (r idx)) ∉ acc.map empKey := by
          intro hmem
          obtain ⟨a, ha, hak⟩ := List.mem_map.mp hmem
          exact hhit (hak ▸ hsub a ha)
        have hnd2 : ((acc ++ [targetCandidate P (r idx)]).map empKey).Nodup := by
          rw [List.map_append]
          simp only [List.map_cons, List.map_nil]
          rw [List.nodup_append]
          refine ⟨hnd, List.nodup_singleton _, ?_⟩
          intro k hk hk2
          simp at hk2
          rw [hk2] at hk
          exact hkey hk
        have hsub2 : ∀ e ∈ acc ++ [targetCandidate P (r idx)],
            empKey e ∈ empKey (targetCandidate P (r idx)) :: seen := by
          intro e he
          rcases List.mem_append.mp he with h1 | h1
          · exact List.mem_cons_of_mem _ (hsub e h1)
          · simp at h1
            rw [h1]
            exact List.mem_cons_self _ _
        obtain ⟨c1, c2, c3, c4, c5⟩ :=
          ih (acc ++ [targetCandidate P (r idx)])
            (empKey (targetCandidate P (r idx)) :: seen) hnd2 hsub2
        refine ⟨c1, c2, fun k hk => c3 k (List.mem_cons_of_mem _ hk), ?_,
          by simp only [List.length_append, List.length_cons, List.length_nil] at c5 ⊢; omega⟩
        intro e he
        rcases c4 e he with h1 | h1
        · rcases List.mem_append.mp h1 with h2 | h2
          · exact Or.inl h2
          · simp at h2
            rw [h2]
            exact Or.inr hhit
        · exact Or.inr (fun hmem => h1 (List.mem_cons_of_mem _ hmem))

theorem card_insert_erase {α : Type} [DecidableEq α] (a : α) (s : Finset α) :
    (insert a s).card = (s.erase a).card + 1 := by
  by_cases h : a ∈ s
  · have h1 : insert a s = s := Finset.insert_eq_self.mpr h
    rw [h1, Finset.card_erase_of_mem h]
    have : 1 ≤ s.card := Finset.card_pos.mpr ⟨a, h⟩
    omega
  · rw [Finset.card_insert_of_not_mem h, Finset.erase_eq_of_not_mem h]

theorem fallbackFold_mem :
    ∀ (batch : List Employee) (db : List (String × PyDate)) (c : Nat)
      (k : String × PyDate),
      k ∈ (batch.foldl recordStep (db, c)).1 ↔ k ∈ db ∨ k ∈ batch.map empKey := by
  intro batch
  induction batch with
  | nil => intro db c k; simp
  | cons e rest ih =>
      intro db c k
      simp only [List.foldl_cons]
      by_cases hmem : empKey e ∈ db
      · have hstep : recordStep (db, c) e = (db, c) := by simp [recordStep, hmem]
        rw [hstep, ih]
        simp only [List.map_cons, List.mem_cons]
        constructor
        · rintro (h | h)
          · exact Or.inl h
          · exact Or.inr (Or.inr h)
        · rintro (h | h | h)
          · exact Or.inl h
          · rw [h]; exact Or.inl hmem
          · exact Or.inr h
      · have hstep : recordStep (db, c) e = (db ++ [empKey e], c + 1) := by
          simp [recordStep, hmem]
        rw [hstep, ih]
        simp only [List.mem_append, List.map_cons, List.mem_cons, List.mem_singleton]
        tauto

theorem fallbackFold_count :
    ∀ (batch : List Employee) (db : List (String × PyDate)) (c : Nat),
      (batch.foldl recordStep (db, c)).2 =
        c + ((batch.map empKey).filter (fun k => k ∉ db)).toFinset.card := by
  intro batch
  induction batch with
  | nil => intro db c; simp
  | cons e rest ih =>
      intro db c
      simp only [List.foldl_cons, List.map_cons]
      by_cases hmem : empKey e ∈ db
      · have hstep : recordStep (db, c) e = (db, c) := by simp [recordStep, hmem]
        rw [hstep, ih]
        have hfil : (empKey e :: rest.map empKey).filter (fun k => k ∉ db) =
            (rest.map empKey).filter (fun k => k ∉ db) := by
          rw [List.filter_cons]
          simp [hmem]
        rw [hfil]
      · have hstep : recordStep (db, c) e = (db ++ [empKey e], c + 1) := by
          simp [recordStep, hmem]
        rw [hstep, ih]
        have hfil : (empKey e :: rest.map empKey).filter (fun k => k ∉ db) =
            empKey e :: (rest.map empKey).filter (fun k => k ∉ db) := by
          rw [List.filter_cons]
          simp [hmem]
        rw [hfil]
        have herase : ((rest.map empKey).filter (fun k => k ∉ db ++ [empKey e])).toFinset =
            ((rest.map empKey).filter (fun k => k ∉ db)).toFinset.erase (empKey e) := by
          ext x
          simp only [List.mem_toFinset, List.mem_filter, Finset.mem_erase,
            List.mem_append, List.mem_singleton, decide_eq_true_eq]
          tauto
        rw [herase, List.toFinset_cons, card_insert_erase]
        omega

theorem mem_insertByName (e x : Employee) (l : List Employee) :
    x ∈ insertByName e l ↔ x = e ∨ x ∈ l := by
  induction l with
  | nil => simp [insertByName]
  | cons a as ih =>
      unfold insertByName
      by_cases h : e.full_name ≤ a.full_name
      · simp [h]
      · simp only [if_neg h, List.mem_cons, ih]
        tauto

theorem mem_sortByName (x : Employee) (l : List Employee) :
    x ∈ sortByName l ↔ x ∈ l := by
  induction l with
  | nil => simp [sortByName]
  | cons a as ih =>
      unfold sortByName at ih ⊢
      simp only [List.foldr_cons, mem_insertByName, ih, List.mem_cons]

theorem generate_ok_eq (P : Pools) (rB rT : Nat → Draw) (n m : Nat)
    (pop : List Employee)
    (h : generate_sample_data P rB rT n m = .ok pop) :
    pop = (genBase P rB n).1 ++ (genTarget P rT m (genBase P rB n).2).1 := by
  unfold generate_sample_data at h
  by_cases hf : P.SURNAMES.filter (fun p => startswith p.1 "F") = []
  · rw [if_pos hf] at h
    exact absurd h (by simp)
  · rw [if_neg hf] at h
    injection h with h2
    exact h2.symm

theorem generate_ok_of_f_surname (P : Pools) (rB rT : Nat → Draw) (n m : Nat)
    (hf : P.SURNAMES.filter (fun p => startswith p.1 "F") ≠ []) :
    generate_sample_data P rB rT n m =
      Except.ok ((genBase P rB n).1 ++ (genTarget P rT m (genBase P rB n).2).1) := by
  unfold generate_sample_data
  rw [if_neg hf]

/-! ## Claim theorems -/

/-- C1: when a batch's single bulk-insert transaction fails with a
uniqueness-constraint violation (`¬ batchFresh`), the loader rolls the batch
back and retries it one record at a time in its own transaction, so the final
store holds exactly the old keys plus the batch's keys, and the inserted
count is the number of distinct batch keys not already stored — only the
failing records (duplicates of the store or of an earlier batch record) are
skipped.  In particular a 5-element batch with one duplicate pair inserts 4
records and skips 1 (see the witness). -/
theorem claim_C1_batch_fallback (db : List (String × PyDate))
    (batch : List Employee) (hfail : ¬ batchFresh db batch) :
    (insertBatch db batch).2 =
      ((batch.map empKey).filter (fun k => k ∉ db)).toFinset.card ∧
    ∀ k, k ∈ (insertBatch db batch).1 ↔ k ∈ db ∨ k ∈ batch.map empKey := by
  unfold insertBatch
  rw [if_neg hfail]
  constructor
  · rw [fallbackFold_count]
    omega
  · intro k
    exact fallbackFold_mem batch db 0 k

theorem claim_C1_batch_fallback_witness :
    ¬ batchFresh [] dupBatch ∧ dupBatch.length = 5 ∧ (insertBatch [] dupBatch).2 = 4 := by
  have hfail : ¬ batchFresh [] dupBatch := by decide
  refine ⟨hfail, rfl, ?_⟩
  rw [(claim_C1_batch_fallback [] dupBatch hfail).1]
  decide

/-- C2: every population returned by the sample-data generator has pairwise
distinct `(full_name, birth_date)` keys, and this survives the final shuffle
(any permutation `out` of the returned population). -/
theorem claim_C2_generated_keys_unique (P : Pools) (rB rT : Nat → Draw)
    (n m : Nat) (pop out : List Employee)
    (hgen : generate_sample_data P rB rT n m = Except.ok pop)
    (hperm : out.Perm pop) :
    (out.map empKey).Nodup := by
  have hpop := generate_ok_eq P rB rT n m pop hgen
  have hbase : genBase P rB n = genBaseLoop P rB n (n * 3 + 1) 0 0 [] [] := rfl
  obtain ⟨b1, b2, b3, b4, b5⟩ :=
    genBaseLoop_spec P rB n (n * 3 + 1) 0 0 [] [] (Nat.zero_le n) (by simp) (by simp)
  obtain ⟨t1, t2, t3, t4, t5⟩ :=
    targetFold_spec P rT (List.range m) [] (genBase P rB n).2 (by simp) (by simp)
  have hnodup : (pop.map empKey).Nodup := by
    rw [hpop, List.map_append, List.nodup_append]
    refine ⟨by rw [hbase]; exact b1, t1, ?_⟩
    intro a ha hta
    obtain ⟨e1, he1, hk1⟩ := List.mem_map.mp ha
    obtain ⟨e2, he2, hk2⟩ := List.mem_map.mp hta
    rcases t4 e2 he2 with h | h
    · simp at h
    · apply h
      rw [hk2, ← hk1]
      rw [hbase] at he1 ⊢
      exact b2 e1 he1
  exact ((hperm.map empKey).nodup_iff).mpr hnodup

theorem claim_C2_generated_keys_unique_witness : (genPop3.map empKey).Nodup :=
  claim_C2_generated_keys_unique P1 rConst rConst 2 1 genPop3 genPop3
    (by rfl) (List.Perm.refl _)

/-- C3 counterexample: with the two-pair pool `P1` and a constant random
source, requesting 5 base records exhausts the 3×5 attempt budget after
generating only 2 distinct records — yet generation returns `Except.ok` with
the partial 2-element population (the loop merely breaks and falls through),
instead of aborting with a fatal pool-exhaustion error. -/
theorem claim_C3_counterexample :
    generate_sample_data P1 rConst rConst 5 0 = Except.ok partialPop ∧
    partialPop.length = 2 ∧ 2 < 5 :=
  ⟨rfl, rfl, by omega⟩

/-- C3 (amended): when the draw attempts exceed 3× the requested population
before the target count is reached, the base loop breaks and generation
continues normally with the partial population — it never raises a
pool-exhaustion error.  Whenever the F-surname pool is non-empty, generation
returns `Except.ok` with at most `n + m` records (fewer exactly when the
break fired or a target draw collided). -/
theorem claim_C3_break_returns_partial (P : Pools) (rB rT : Nat → Draw)
    (n m : Nat)
    (hf : P.SURNAMES.filter (fun p => startswith p.1 "F") ≠ []) :
    generate_sample_data P rB rT n m =
      Except.ok ((genBase P rB n).1 ++ (genTarget P rT m (genBase P rB n).2).1) ∧
    ∀ pop, generate_sample_data P rB rT n m = Except.ok pop →
      pop.length ≤ n + m := by
  refine ⟨generate_ok_of_f_surname P rB rT n m hf, ?_⟩
  intro pop hgen
  have hpop := generate_ok_eq P rB rT n m pop hgen
  obtain ⟨b1, b2, b3, b4, b5⟩ :=
    genBaseLoop_spec P rB n (n * 3 + 1) 0 0 [] [] (Nat.zero_le n) (by simp) (by simp)
  obtain ⟨t1, t2, t3, t4, t5⟩ :=
    targetFold_spec P rT (List.range m) [] (genBase P rB n).2 (by simp) (by simp)
  have hbaselen : (genBase P rB n).1.length ≤ n := by
    have : (genBaseLoop P rB n (n * 3 + 1) 0 0 [] []).1.length + 0 ≤
        ([] : List Employee).length + n := b4
    simpa [genBase] using this
  have htlen : (genTarget P rT m (genBase P rB n).2).1.length ≤ m := by
    have := t5
    simpa [genTarget] using this
  rw [hpop, List.length_append]
  omega

theorem claim_C3_break_returns_partial_witness :
    generate_sample_data P1 rConst rConst 5 0 =
      Except.ok ((genBase P1 rConst 5).1 ++ (genTarget P1 rConst 0 (genBase P1 rConst 5).2).1) ∧
    partialPop.length ≤ 5 + 0 := by
  have h := claim_C3_break_returns_partial P1 rConst rConst 5 0 (by decide)
  exact ⟨h.1, h.2 partialPop (by rfl)⟩

/-- C4 (code bug, evaluated at the failing input): with a pool whose only
surname pair is an F-pair and a constant random source, requesting 0 base +
2 target records returns only 1 record: the second target draw collides with
the first and is silently dropped, because the source's `i -= 1` retry does
not affect a Python `for i in range(...)` loop.  The population therefore has
fewer than N+M records and fewer than M Male/F-prefix records, contradicting
the announced "TOTAL" count. -/
theorem claim_C4_target_collision_drops_record :
    generate_sample_data POnlyF rConst rConst 0 2 = Except.ok [foxEmp] ∧
    ([foxEmp].length = 1 ∧ (1 : Nat) ≠ 0 + 2) ∧
    ([foxEmp].filter (fun e => e.gender == "Male" && startswith e.full_name "F")).length = 1 ∧
    (1 : Nat) < 2 :=
  ⟨rfl, ⟨rfl, by omega⟩, by decide, by omega⟩

/-- C5: `validate` raises (equivalently, `validateErrors` is non-empty)
exactly when the name is empty/whitespace-only or longer than 200
characters, or the birth date is missing, after today, or earlier than 150
years before today, or the gender is not exactly "Male" or "Female"; it
accepts every other record, and each failing field contributes a reason
naming that field. -/
theorem claim_C5_validate_exact (fn : String) (bd : Option PyDate)
    (g : String) (today : PyDate) :
    (validateErrors fn bd g today ≠ [] ↔
      ((∀ c ∈ fn.data, c.isWhitespace) ∨ fn.length > 200) ∨
      (bd = none ∨ ∃ d, bd = some d ∧
        (PyDate.lt today d = true ∨
          PyDate.lt d (today.replaceYear (today.year - 150)) = true)) ∨
      ¬ (g = "Male" ∨ g = "Female")) ∧
    (validate fn bd g today = Except.ok () ↔ validateErrors fn bd g today = []) ∧
    ((∀ c ∈ fn.data, c.isWhitespace) →
      "Full name cannot be empty" ∈ validateErrors fn bd g today) ∧
    (¬ (∀ c ∈ fn.data, c.isWhitespace) → fn.length > 200 →
      "Full name too long (max 200 characters)" ∈ validateErrors fn bd g today) ∧
    (bd = none → "Birth date is required" ∈ validateErrors fn bd g today) ∧
    (∀ d, bd = some d → PyDate.lt today d = true →
      "Birth date cannot be in the future" ∈ validateErrors fn bd g today) ∧
    (∀ d, bd = some d → PyDate.lt d (today.replaceYear (today.year - 150)) = true →
      "Birth date seems too far in the past" ∈ validateErrors fn bd g today) ∧
    (¬ (g = "Male" ∨ g = "Female") →
      "Gender must be one of: Male, Female" ∈ validateErrors fn bd g today) := by
  have hws := pyStrip_length_zero_iff fn
  refine ⟨?_, ?_, ?_, ?_, ?_, ?_, ?_, ?_⟩
  · unfold validateErrors
    rcases bd with _ | d
    · split_ifs <;> simp_all
    · cases hfut : PyDate.lt today d <;>
        cases hpast : PyDate.lt d (today.replaceYear (today.year - 150)) <;>
        split_ifs <;> simp_all
  · unfold validate
    by_cases h : validateErrors fn bd g today = []
    · simp [h]
    · simp [h]
  · intro hA
    have h1 : fn = "" ∨ (pyStrip fn).length = 0 := hws.mpr hA
    simp [validateErrors, if_pos h1]
  · intro hA hlen
    have h1 : ¬ (fn = "" ∨ (pyStrip fn).length = 0) := fun h => hA (hws.mp h)
    simp [validateErrors, if_neg h1, hlen]
  · rintro rfl
    simp [validateErrors]
  · rintro d rfl hfut
    simp [validateErrors, hfut]
  · rintro d rfl hpast
    simp [validateErrors, hpast]
  · intro hg
    simp [validateErrors, if_neg hg]

theorem claim_C5_validate_exact_witness :
    validateErrors "" none "X" ⟨2025, 10, 12⟩ ≠ [] ∧
    validate "Ivanov Ivan Ivanovich" (some ⟨1990, 1, 1⟩) "Male" ⟨2025, 10, 12⟩ =
      Except.ok () := by
  constructor
  · exact (claim_C5_validate_exact "" none "X" ⟨2025, 10, 12⟩).1.mpr
      (Or.inl (Or.inl (by decide)))
  · exact (claim_C5_validate_exact "Ivanov Ivan Ivanovich" (some ⟨1990, 1, 1⟩)
      "Male" ⟨2025, 10, 12⟩).2.1.mpr (by decide)

/-- C6: for a birth date exactly `N` years before "today" (same month and
day, year increased by `N`), `calculate_age` returns `N`; on the calendar day
immediately before that anniversary it returns `N - 1`. -/
theorem claim_C6_calculate_age_boundary (birth : PyDate) (N : Nat)
    (hN : 1 ≤ N)
    (hval : isValidDate ⟨birth.year + N, birth.month, birth.day⟩) :
    calculate_age birth ⟨birth.year + N, birth.month, birth.day⟩ = (N : Int) ∧
    calculate_age birth (prevDay ⟨birth.year + N, birth.month, birth.day⟩) =
      (N : Int) - 1 := by
  obtain ⟨hm1, hm2, hd1, hd2⟩ := hval
  dsimp only at hm1 hm2 hd1 hd2
  constructor
  · unfold calculate_age
    split_ifs with h
    · dsimp only at h
      omega
    · dsimp only
      omega
  · unfold prevDay
    by_cases hday : birth.day > 1
    · rw [if_pos (by dsimp only; omega : ((⟨birth.year + N, birth.month,
        birth.day⟩ : PyDate).day > 1))]
      unfold calculate_age
      split_ifs with h
      · dsimp only
        omega
      · dsimp only at h
        omega
    · by_cases hmon : birth.month > 1
      · rw [if_neg (by dsimp only; omega : ¬ ((⟨birth.year + N, birth.month,
          birth.day⟩ : PyDate).day > 1)), if_pos (by dsimp only; omega : ((⟨birth.year + N,
          birth.month, birth.day⟩ : PyDate).month > 1))]
        unfold calculate_age
        split_ifs with h
        · dsimp only
          omega
        · dsimp only at h
          omega
      · rw [if_neg (by dsimp only; omega : ¬ ((⟨birth.year + N, birth.month,
          birth.day⟩ : PyDate).day > 1)), if_neg (by dsimp only; omega : ¬ ((⟨birth.year + N,
          birth.month, birth.day⟩ : PyDate).month > 1))]
        unfold calculate_age
        split_ifs with h
        · dsimp only at h
          omega
        · dsimp only
          omega

theorem claim_C6_calculate_age_boundary_witness :
    calculate_age ⟨1990, 5, 15⟩ ⟨(1990 : Int) + (35 : Nat), 5, 15⟩ = ((35 : Nat) : Int) ∧
    calculate_age ⟨1990, 5, 15⟩ (prevDay ⟨(1990 : Int) + (35 : Nat), 5, 15⟩) =
      ((35 : Nat) : Int) - 1 :=
  claim_C6_calculate_age_boundary ⟨1990, 5, 15⟩ 35 (by omega) (by decide)

/-- C7 counterexample: with a negative batch size and a non-empty input, the
loader does NOT fail: `range(0, total, batch_size)` is empty, so the loop
body never runs and the call returns successfully having inserted nothing —
refuting "batchSize ≤ 0 fails as a configuration error" for negative sizes. -/
theorem claim_C7_counterexample :
    bulk_insert_employees [] [eA] (-1) = Except.ok ([], 0) ∧
    ([eA] : List Employee) ≠ [] ∧ (-1 : Int) ≤ 0 :=
  ⟨rfl, by simp, by omega⟩

/-- C7 (amended): only `batchSize = 0` is reported as an error (Python's
`range` rejects a zero step and the loader re-raises it), with no records
inserted; a negative `batchSize` silently returns success with zero
insertions, because the `range` is empty. -/
theorem claim_C7_batch_size_nonpositive (db : List (String × PyDate))
    (es : List Employee) (bs : Int) (hne : es ≠ []) (hle : bs ≤ 0) :
    (bs = 0 → bulk_insert_employees db es bs =
      Except.error "Error during bulk insert: range() arg 3 must not be zero") ∧
    (bs < 0 → bulk_insert_employees db es bs = Except.ok (db, 0)) := by
  constructor
  · intro h0
    unfold bulk_insert_employees
    rw [if_neg hne, if_pos h0]
  · intro hneg
    unfold bulk_insert_employees
    rw [if_neg hne, if_neg (by omega), if_pos hneg]

theorem claim_C7_batch_size_nonpositive_witness :
    bulk_insert_employees [] [eA] 0 =
      Except.error "Error during bulk insert: range() arg 3 must not be zero" ∧
    bulk_insert_employees [] [eA] (-2) = Except.ok ([], 0) := by
  have h0 := claim_C7_batch_size_nonpositive [] [eA] 0 (by simp) (by omega)
  have hn := claim_C7_batch_size_nonpositive [] [eA] (-2) (by simp) (by omega)
  exact ⟨h0.1 rfl, hn.2 (by omega)⟩

/-- C8: creating the optimization index is idempotent: the stale-name drops
followed by `CREATE INDEX idx_employees_gender_fname ON employees(gender,
full_name)` leave exactly one index of that name, always with columns
`(gender, full_name)`, and a second run reproduces the same index state. -/
theorem claim_C8_index_idempotent (s : List IndexDef) :
    create_optimization_indexes (create_optimization_indexes s) =
      create_optimization_indexes s ∧
    (create_optimization_indexes s).countP
      (fun ix => ix.name == "idx_employees_gender_fname") = 1 ∧
    ∀ ix ∈ create_optimization_indexes s,
      ix.name = "idx_employees_gender_fname" →
      ix = ⟨"idx_employees_gender_fname", ["gender", "full_name"]⟩ := by
  refine ⟨?_, ?_, ?_⟩
  · unfold create_optimization_indexes
    rw [List.filter_append]
    have h1 : ∀ (t : List IndexDef),
        (t.filter (fun ix => ix.name ∉ dropped_index_names)).filter
          (fun ix => ix.name ∉ dropped_index_names) =
        t.filter (fun ix => ix.name ∉ dropped_index_names) := by
      intro t
      rw [List.filter_filter]
      apply List.filter_congr
      intro x hx
      simp
    rw [h1]
    have h2 : ([(⟨"idx_employees_gender_fname", ["gender", "full_name"]⟩ : IndexDef)].filter
        (fun ix => ix.name ∉ dropped_index_names)) = [] := by decide
    rw [h2, List.append_nil]
  · unfold create_optimization_indexes
    rw [List.countP_append]
    have h1 : (s.filter (fun ix => ix.name ∉ dropped_index_names)).countP
        (fun ix => ix.name == "idx_employees_gender_fname") = 0 := by
      rw [List.countP_eq_zero]
      intro ix hix
      have hmem := (List.mem_filter.mp hix).2
      simp only [decide_eq_true_eq] at hmem
      intro hname
      apply hmem
      rw [eq_of_beq hname]
      decide
    rw [h1]
    decide
  · intro ix hix hname
    unfold create_optimization_indexes at hix
    rcases List.mem_append.mp hix with h | h
    · exfalso
      have hmem := (List.mem_filter.mp h).2
      simp only [decide_eq_true_eq] at hmem
      apply hmem
      rw [hname]
      decide
    · simp only [List.mem_singleton] at h
      exact h

theorem claim_C8_index_idempotent_witness :
    create_optimization_indexes (create_optimization_indexes idxState) =
      create_optimization_indexes idxState ∧
    (create_optimization_indexes idxState).countP
      (fun ix => ix.name == "idx_employees_gender_fname") = 1 :=
  ⟨(claim_C8_index_idempotent idxState).1, (claim_C8_index_idempotent idxState).2.1⟩

/-- C9 counterexample: a stored row with gender "Male" and `full_name = "F"`
starts with the reserved prefix but is not returned by the demonstration
query — the active SQLite branch filters with `LIKE 'F% %'`, which also
requires a space after the first character. -/
theorem claim_C9_counterexample :
    eFOnly ∉ query_male_f_surnames [eFOnly] ∧
    eFOnly.gender = "Male" ∧ startswith eFOnly.full_name "F" = true :=
  ⟨by decide, rfl, by decide⟩

/-- C9 (amended): on the SQLite backend (the only one the configuration
supports), a row is returned by the demonstration query iff it is stored,
its gender is "Male", and its `full_name` matches `LIKE 'F% %'`: first
character `F` (ASCII case-insensitively, SQLite's default `LIKE`) and a
space somewhere after it. -/
theorem claim_C9_query_matches_like (db : List Employee) (e : Employee) :
    e ∈ query_male_f_surnames db ↔
      e ∈ db ∧ e.gender = "Male" ∧ likeFSpace e.full_name = true := by
  unfold query_male_f_surnames
  rw [mem_sortByName, List.mem_filter]
  simp [Bool.and_eq_true]

theorem claim_C9_query_matches_like_witness :
    eFa ∈ query_male_f_surnames [eFa] :=
  (claim_C9_query_matches_like [eFa] eFa).mpr ⟨by simp, rfl, by decide⟩

/-- C10: base-phase Male records never have a full name starting with "F"
(their surnames are drawn from the pool with F-male-surnames filtered out),
so in any generated population every Male record whose name starts with "F"
comes from the target subset. -/
theorem claim_C10_base_males_not_F (P : Pools) (rB rT : Nat → Draw)
    (n m : Nat) (pop : List Employee)
    (hav : P.SURNAMES.filter (fun p => ¬ startswith p.1 "F") ≠ [])
    (hgen : generate_sample_data P rB rT n m = Except.ok pop) :
    (∀ e ∈ (genBase P rB n).1, e.gender = "Male" →
      startswith e.full_name "F" = false) ∧
    (∀ e ∈ pop, e.gender = "Male" → startswith e.full_name "F" = true →
      e ∈ (genTarget P rT m (genBase P rB n).2).1) := by
  have hbase : ∀ e ∈ (genBase P rB n).1, e.gender = "Male" →
      startswith e.full_name "F" = false := by
    intro e he hg
    obtain ⟨b1, b2, b3, b4, b5⟩ :=
      genBaseLoop_spec P rB n (n * 3 + 1) 0 0 [] [] (Nat.zero_le n) (by simp) (by simp)
    rcases b5 e he with h | ⟨j, rfl⟩
    · simp at h
    · exact baseCandidate_male_not_F P (rB j) j hav hg
  refine ⟨hbase, ?_⟩
  intro e he hg hF
  have hpop := generate_ok_eq P rB rT n m pop hgen
  rw [hpop] at he
  rcases List.mem_append.mp he with h | h
  · exact absurd hF (by simp [hbase e h hg])
  · exact h

theorem claim_C10_base_males_not_F_witness :
    startswith eSmithJM.full_name "F" = false := by
  have h := claim_C10_base_males_not_F P1 rConst rConst 2 1 genPop3 (by decide) (by rfl)
  exact h.1 eSmithJM (by decide) rfl
